import Mathlib

/-!
Verification development for the accessibility-bridge core of the engine
repository.  The repository ships the interface of
`flutter::AccessibilityBridge` (`src/unnamed/part_000`, the header
`accessibility_bridge.h`): the semantics-record data model (lines 261-292),
the staging maps (lines 294-302), and the public operations
`AddFlutterSemanticsNodeUpdate`, `AddFlutterSemanticsCustomActionUpdate`,
`CommitUpdates`, `GetFlutterPlatformNodeDelegateFromID`,
`GetAXTreeData`, `GetPendingEvents`, `GetLastFocusedId`.
The bodies of those operations (accessibility_bridge.cc, ui::AXTree, the
event generator) are not part of the repository sources, so the behaviour
of commit, validation, event generation and the delegate registry is
modelled from the specification (spec.md sections 3, 4, 7, 8) on top of the
data model taken from the header.

Machine integers (int32_t) are modelled as unbounded `Int` - no claim
involves arithmetic near the 32-bit boundary.  C++ doubles are modelled as
`Rat`; no claim computes with them.  `std::unordered_map` is modelled as an
association list with insert-or-replace semantics; the C++ container's
iteration order is unspecified, so every traversal the model performs is a
deterministic canonical order, which the specification's determinism
requirement (section 4.3) permits.  `std::weak_ptr` lookup is modelled as
`Option`: `some` while the registry holds the delegate, `none` once it was
erased or was never created.
-/

namespace EngineA11y

/-! ## Association-list maps (model of `std::unordered_map`) -/

/-- Lookup of the first entry with the given key. -/
def alookup {α : Type} : List (Int × α) → Int → Option α
  | [], _ => none
  | p :: ps, k => if p.1 = k then some p.2 else alookup ps k

/-- Keys of an association list, in entry order. -/
def akeys {α : Type} (m : List (Int × α)) : List Int := m.map (·.1)

/-- Insert-or-replace by key: replaces the first entry with the key, or
appends a fresh entry.  Models `map[key] = value` on `std::unordered_map`. -/
def ainsert {α : Type} : List (Int × α) → Int → α → List (Int × α)
  | [], k, v => [(k, v)]
  | p :: ps, k, v => if p.1 = k then (k, v) :: ps else p :: ainsert ps k v

/-! ## Semantics records (from the header, `src/unnamed/part_000` lines 261-292) -/

/-- SemanticsNode of `accessibility_bridge.h` (lines 261-284): one flat
semantics update record.  `flags` and `actions` are the two bitsets;
doubles are modelled as `Rat`, the rectangle as four rationals and the
3x3 affine transform as a list of rationals. -/
structure SemanticsNode where
  id : Int := 0
  flags : Nat := 0
  actions : Nat := 0
  textSelectionBase : Int := -1
  textSelectionExtent : Int := -1
  scrollChildCount : Int := 0
  scrollIndex : Int := 0
  scrollPosition : Rat := 0
  scrollExtentMax : Rat := 0
  scrollExtentMin : Rat := 0
  elevation : Rat := 0
  thickness : Rat := 0
  label : String := ""
  hint : String := ""
  value : String := ""
  increasedValue : String := ""
  decreasedValue : String := ""
  textDirection : Nat := 0
  rect : Rat × Rat × Rat × Rat := (0, 0, 0, 0)
  transform : List Rat := []
  childrenInTraversalOrder : List Int := []
  customAccessibilityActions : List Int := []
deriving DecidableEq, Repr

/-- SemanticsCustomAction of `accessibility_bridge.h` (lines 287-292). -/
structure SemanticsCustomAction where
  id : Int := 0
  overrideAction : Nat := 0
  label : String := ""
  hint : String := ""
deriving DecidableEq, Repr

/-! ## Derived tree nodes and tree data

Modelled from the spec: the `ui::AXTree` node data and tree data types are
not under src/; spec.md section 3 ("Tree Node", "Tree Data") gives their
content. -/

/-- Modelled from the spec: the single role enum derived from the flag
bitset (spec.md section 3 "Tree Node", section 4.2 step 2). -/
inductive AXRole where
  | header
  | button
  | textField
  | container
deriving DecidableEq, Repr

/-- Modelled from the spec: flag bit positions of the semantics flag
bitset used by the role/state derivation (spec.md sections 3 and 4.2; the
concrete enum `FlutterSemanticsFlag` lives in embedder.h, outside src/).
Bit 0 = focused, bit 1 = button, bit 2 = header, bit 3 = text field
(editable), bit 4 = hidden, bit 5 = checked. -/
def knownFlagMask : Nat := 63

/-- Modelled from the spec: mask of the known action bits; unknown bits
are dropped, not fatal (spec.md section 4.2 step 2). -/
def knownActionMask : Nat := 255

/-- Modelled from the spec: the per-node attribute bag held by the tree
(spec.md section 3 "Tree Node"): role, state set, action set, derived
name/value, geometry, ordered child ids, resolved custom-action ids and
the text-selection fields used for tree data. -/
structure AXNodeData where
  role : AXRole := .container
  states : Nat := 0
  actionBits : Nat := 0
  name : String := ""
  value : String := ""
  rect : Rat × Rat × Rat × Rat := (0, 0, 0, 0)
  transform : List Rat := []
  childIds : List Int := []
  customActionIds : List Int := []
  textSelBase : Int := -1
  textSelExtent : Int := -1
deriving DecidableEq, Repr

/-- Modelled from the spec: tree-wide scalar state (spec.md section 3
"Tree Data"): focused node id and the text-selection anchor/focus ids and
offsets; -1 is the no-focus / no-selection sentinel (spec.md section 6). -/
structure AXTreeData where
  focusId : Int := -1
  selAnchorId : Int := -1
  selAnchorOffset : Int := -1
  selFocusId : Int := -1
  selFocusOffset : Int := -1
deriving DecidableEq, Repr

/-- Modelled from the spec: the persisted accessibility tree (spec.md
section 3): an id-indexed table of nodes holding child-id lists plus the
tree-wide data.  Children are tracked as plain id fields (spec.md
section 9). -/
structure AXTree where
  nodes : List (Int × AXNodeData) := []
  data : AXTreeData := {}
deriving DecidableEq, Repr

/-- Events generated during a commit.  The structural kinds mirror the
`ui::AXTreeObserver` callbacks declared in the header (lines 333-358);
the attribute kinds are modelled from spec.md section 4.2 step 6. -/
inductive AXEventKind where
  | subtreeWillBeDeleted
  | nodeDeleted
  | nodeCreated
  | nodeReparented
  | roleChanged
  | valueChanged
  | childrenChanged
  | focusChanged
deriving DecidableEq, Repr

/-- One targeted event: the event target id and the event kind. -/
structure AXEvent where
  target : Int
  kind : AXEventKind
deriving DecidableEq, Repr

/-! ## Conversion of a semantics record to tree node data

Modelled from the spec: `ConvertFluterUpdate` and the `Set*FromFlutterUpdate`
helpers are declared in the header (lines 307-327) but their bodies are not
under src/; spec.md section 4.2 step 2 describes the derivation. -/

/-- Modelled from the spec: role derivation with a fixed precedence table -
header outranks button, button outranks text field, anything unresolved
falls back to the generic container role, never an error (spec.md
section 4.2 step 2). -/
def roleOf (flags : Nat) : AXRole :=
  if flags.testBit 2 then .header
  else if flags.testBit 1 then .button
  else if flags.testBit 3 then .textField
  else .container

/-- Modelled from the spec: name derivation - label if non-empty, else the
value field when the node is not editable (spec.md section 4.2 step 2). -/
def nameOf (r : SemanticsNode) : String :=
  if r.label ≠ "" then r.label
  else if ¬ r.flags.testBit 3 then r.value
  else ""

/-- Modelled from the spec: value derivation - the value field, or a
synthesized range description when the value is empty and scroll
attributes are present (spec.md section 4.2 step 2). -/
def valueOf (r : SemanticsNode) : String :=
  if r.value ≠ "" then r.value
  else if r.scrollPosition ≠ 0 ∨ r.scrollExtentMax ≠ 0 ∨ r.scrollExtentMin ≠ 0 then
    "range-control"
  else ""

/-- Modelled from the spec: synthesis of one tree-node attribute bag from a
semantics record.  Custom-action references are resolved against the
pending/previous custom-action table; a reference to a missing id is
dropped, non-fatally (spec.md section 4.2 step 2). -/
def convertNode (r : SemanticsNode) (table : List (Int × SemanticsCustomAction)) :
    AXNodeData :=
  { role := roleOf r.flags
    states := r.flags &&& knownFlagMask
    actionBits := r.actions &&& knownActionMask
    name := nameOf r
    value := valueOf r
    rect := r.rect
    transform := r.transform
    childIds := r.childrenInTraversalOrder
    customActionIds :=
      r.customAccessibilityActions.filter (fun a => (alookup table a).isSome)
    textSelBase := r.textSelectionBase
    textSelExtent := r.textSelectionExtent }

/-! ## Structural validation

Modelled from the spec: the tree applies a structural update atomically and
rejects cycles, orphan child references and duplicate/absent roots
(spec.md section 4.2 steps 4-5, section 7 "Malformed batch").  Validation
only looks at the child-id structure, never at attribute payloads. -/

/-- Child lists of a node map, key by key - the only input of structural
validation. -/
def childMapOf (m : List (Int × AXNodeData)) : List (Int × List Int) :=
  m.map (fun p => (p.1, p.2.childIds))

/-- Child ids recorded for an id in a child map, empty when absent. -/
def childrenIn (cm : List (Int × List Int)) (i : Int) : List Int :=
  (alookup cm i).getD []

/-- Modelled from the spec: depth-first reachability from the root over a
child map.  `rem` is the set of ids not visited yet (every occurrence of a
visited id is removed, so the output has no duplicates); `front` is the
frontier; the fuel argument only bounds the recursion and is chosen large
enough for every concrete tree. -/
def reachAux (cm : List (Int × List Int)) : Nat → List Int → List Int → List Int
  | 0, _, _ => []
  | _ + 1, _, [] => []
  | fuel + 1, rem, n :: front =>
    if n ∈ rem then
      n :: reachAux cm fuel (rem.filter (fun j => decide (j ≠ n)))
            (childrenIn cm n ++ front)
    else
      reachAux cm fuel rem front

/-- Fuel bound for `reachAux`: one step per frontier element ever pushed. -/
def reachFuel (cm : List (Int × List Int)) : Nat :=
  1 + cm.length + (cm.map (fun p => p.2.length)).sum

/-- Ids reachable from the root id 0 in a child map, in depth-first order,
without duplicates. -/
def reachList (cm : List (Int × List Int)) : List Int :=
  reachAux cm (reachFuel cm) (cm.map (·.1)) [0]

/-- One peeling round of the acyclicity check: append every id whose
children have all been peeled already. -/
def peelStep (cm : List (Int × List Int)) (peeled : List Int) : List Int :=
  peeled ++ (cm.map (·.1)).filter
    (fun i => decide (i ∉ peeled) && (childrenIn cm i).all (fun c => decide (c ∈ peeled)))

/-- Iterated leaves-first peeling; with enough rounds it peels every id of
an acyclic child graph, while the ids of a cycle are never peeled. -/
def peelIter (cm : List (Int × List Int)) : Nat → List Int → List Int
  | 0, peeled => peeled
  | fuel + 1, peeled => peelIter cm fuel (peelStep cm peeled)

/-- Modelled from the spec: structural validity of a merged node map
(spec.md section 3 invariant, section 4.2 step 4, section 7 "Malformed
batch").  `oldKeys` are the node ids of the existing tree.  Checks: the
root id 0 exists; every child id referenced by any merged record exists in
the batch or the existing tree (no dangling reference, reachable or not);
no node reachable from the root is listed as a child twice and the root is
never a child (single parent, no duplicate root among the live tree); every
id introduced by the batch - absent from the existing tree - is reachable
from the root (a never-existing parentless record, a second root, or a new
record attached under a deleted subtree is a fatal missing-parent
violation); and the whole merged child graph is acyclic (a cycle is fatal
even when detached from the root).  Existing-tree nodes that merely become
unreachable are pruned, not rejected: spec.md section 4.2's non-fatal
carve-out covers exactly the descendants orphaned by a same-batch delete. -/
def structOkCM (cm : List (Int × List Int)) (oldKeys : List Int) : Bool :=
  let keys := cm.map (·.1)
  let r := reachList cm
  let occ := r.flatMap (childrenIn cm)
  decide (0 ∈ keys)
    && keys.all (fun i => (childrenIn cm i).all (fun c => decide (c ∈ keys)))
    && decide occ.Nodup
    && decide ((0 : Int) ∉ occ)
    && keys.all (fun k => decide (k ∈ oldKeys) || decide (k ∈ r))
    && keys.all (fun i => decide (i ∈ peelIter cm (keys.length + 1) []))

/-- Structural validity of a merged node map against the existing tree's
node ids. -/
def structOk (m : List (Int × AXNodeData)) (oldKeys : List Int) : Bool :=
  structOkCM (childMapOf m) oldKeys

/-- Reachable ids of a merged node map. -/
def reachOf (m : List (Int × AXNodeData)) : List Int :=
  reachList (childMapOf m)

/-! ## Building the new tree -/

/-- Modelled from the spec: tree data recomputed from whichever node in the
new tree carries the relevant flags (spec.md section 3 "Tree Data",
section 4.2 step 3): the focused id is the first node whose state set has
the focused bit; the selection comes from the first node carrying a
non-negative selection base. -/
def treeDataOf (nodes : List (Int × AXNodeData)) : AXTreeData :=
  let focus := ((nodes.find? (fun p => p.2.states.testBit 0)).map (·.1)).getD (-1)
  match nodes.find? (fun p => decide (0 ≤ p.2.textSelBase)) with
  | some p =>
      { focusId := focus, selAnchorId := p.1, selAnchorOffset := p.2.textSelBase
        selFocusId := p.1, selFocusOffset := p.2.textSelExtent }
  | none => { focusId := focus }

/-- Modelled from the spec: the tree that results from applying a merged
node map - the map restricted to the ids reachable from the root (nodes no
longer reachable are removed), with recomputed tree data (spec.md
section 4.2 steps 3-4). -/
def newTreeOf (m : List (Int × AXNodeData)) : AXTree :=
  let nodes := (reachOf m).filterMap (fun i => (alookup m i).map (fun d => (i, d)))
  { nodes := nodes, data := treeDataOf nodes }

/-! ## Event generation

Modelled from the spec: the event generator is a pure function of the
previous and new snapshots (spec.md section 4.3); its ordering follows
section 4.2 steps 5-6: subtree-will-be-deleted notifications fire before
any per-node deletion, structural events precede attribute events, and
events are deduplicated by (target id, kind). -/

/-- Ids deleted by a commit: present before, absent after. -/
def deletedIds (t nt : AXTree) : List Int :=
  (akeys t.nodes).filter (fun i => decide (i ∉ akeys nt.nodes))

/-- Ids created by a commit: absent before, present after. -/
def createdIds (t nt : AXTree) : List Int :=
  (akeys nt.nodes).filter (fun i => decide (i ∉ akeys t.nodes))

/-- Ids surviving a commit: present before and after. -/
def survivorIds (t nt : AXTree) : List Int :=
  (akeys nt.nodes).filter (fun i => decide (i ∈ akeys t.nodes))

/-- Child ids recorded for an id in a node map, empty when absent. -/
def childIdsOf (m : List (Int × AXNodeData)) (i : Int) : List Int :=
  ((alookup m i).map (·.childIds)).getD []

/-- Deleted children of a deleted node: the part of its old child list that
is also deleted - its non-reparented subtree. -/
def deletedKids (t nt : AXTree) (i : Int) : List Int :=
  (childIdsOf t.nodes i).filter (fun c => decide (c ∈ deletedIds t nt))

/-- Parent of an id in a node map: the first node listing it as a child. -/
def parentOf (m : List (Int × AXNodeData)) (i : Int) : Option Int :=
  (m.find? (fun p => decide (i ∈ p.2.childIds))).map (·.1)

/-- Role recorded for an id, if present. -/
def roleAt (t : AXTree) (i : Int) : Option AXRole :=
  (alookup t.nodes i).map (·.role)

/-- Value string recorded for an id, if present. -/
def valueAt (t : AXTree) (i : Int) : Option String :=
  (alookup t.nodes i).map (·.value)

/-- Events of a commit that follow the subtree-will-be-deleted
notifications: per-node deletions, creations, reparentings, role changes,
then the attribute-derived events (spec.md section 4.2 steps 5-6). -/
def eventsTail (t nt : AXTree) : List AXEvent :=
  (deletedIds t nt).map (fun i => ⟨i, .nodeDeleted⟩)
    ++ (createdIds t nt).map (fun i => ⟨i, .nodeCreated⟩)
    ++ ((survivorIds t nt).filter
          (fun i => decide (parentOf t.nodes i ≠ parentOf nt.nodes i))).map
        (fun i => ⟨i, .nodeReparented⟩)
    ++ ((survivorIds t nt).filter
          (fun i => decide (parentOf t.nodes i = parentOf nt.nodes i ∧
                            roleAt t i ≠ roleAt nt i))).map
        (fun i => ⟨i, .roleChanged⟩)
    ++ ((survivorIds t nt).filter (fun i => decide (valueAt t i ≠ valueAt nt i))).map
        (fun i => ⟨i, .valueChanged⟩)
    ++ ((survivorIds t nt).filter
          (fun i => decide (childIdsOf t.nodes i ≠ childIdsOf nt.nodes i))).map
        (fun i => ⟨i, .childrenChanged⟩)
    ++ (if t.data.focusId ≠ nt.data.focusId then [⟨nt.data.focusId, .focusChanged⟩] else [])

/-- Modelled from the spec: the ordered event sequence of a commit, a pure
function of the old and new tree snapshots (spec.md section 4.3).  Every
subtree-will-be-deleted notification precedes every per-node deletion;
structural events (deleted, created, reparented, role-changed - one per
node, in that precedence) precede attribute-derived events; each (id,
kind) pair occurs at most once. -/
def eventsOf (t nt : AXTree) : List AXEvent :=
  ((deletedIds t nt).filter (fun i => decide (deletedKids t nt i ≠ []))).map
      (fun i => ⟨i, .subtreeWillBeDeleted⟩)
    ++ eventsTail t nt

/-! ## The bridge state and its operations -/

/-- Modelled from the spec: the delegate registry entry is an opaque
per-node platform delegate; identity is modelled as the `Nat` token handed
out by the factory, fresh per creation (spec.md sections 3 and 4.4). -/
def DelegateId := Nat
deriving instance DecidableEq, Repr for DelegateId

/-- State of one `AccessibilityBridge` (header lines 294-303): the delegate
registry `id_wrapper_map_`, the tree `tree_`, the two pending staging maps,
the committed custom-action table, the last-focused id and the accumulated
pending events of `event_generator_`.  `nextDelegate` is the model's
fresh-token counter for delegate identity. -/
structure BridgeState where
  tree : AXTree := {}
  registry : List (Int × Nat) := []
  nextDelegate : Nat := 0
  pendingNodes : List (Int × SemanticsNode) := []
  pendingActions : List (Int × SemanticsCustomAction) := []
  committedActions : List (Int × SemanticsCustomAction) := []
  lastFocusedId : Int := -1
  pendingEvents : List AXEvent := []
deriving DecidableEq, Repr

/-- The ID of the root node in the accessibility tree; in Flutter this is
always 0 (header lines 195-198). -/
def kRootNodeId : Int := 0

/-- Modelled from the spec: the invalid-node-id sentinel
`ui::AXNode::kInvalidAXID`; ax_node.h is not under src/, and spec.md
section 6 fixes -1 as the no-focus sentinel. -/
def kInvalidAXID : Int := -1

/-- A fresh bridge: empty tree, empty registry, empty staging buffer, and
`last_focused_id_ = ui::AXNode::kInvalidAXID` (header line 302). -/
def initialBridge : BridgeState :=
  { lastFocusedId := kInvalidAXID }

/-- AddFlutterSemanticsNodeUpdate (header lines 200-206): insert-or-replace
the record, keyed by its id, in the pending node map.  Touches nothing
else. -/
def addFlutterSemanticsNodeUpdate (s : BridgeState) (n : SemanticsNode) :
    BridgeState :=
  { s with pendingNodes := ainsert s.pendingNodes n.id n }

/-- AddFlutterSemanticsCustomActionUpdate (header lines 208-217):
insert-or-replace the record, keyed by its id, in the pending
custom-action map.  Touches nothing else. -/
def addFlutterSemanticsCustomActionUpdate (s : BridgeState)
    (a : SemanticsCustomAction) : BridgeState :=
  { s with pendingActions := ainsert s.pendingActions a.id a }

/-- Outcome of the commit decision: no-op, structural failure, or success
with the new tree, the new committed custom-action table and the event
sequence. -/
inductive CommitOutcome where
  | noop
  | failed
  | ok (nt : AXTree) (nca : List (Int × SemanticsCustomAction)) (evs : List AXEvent)
deriving DecidableEq, Repr

/-- Status a commit reports to the caller. -/
inductive CommitStatus where
  | noop
  | ok
  | failed
deriving DecidableEq, Repr

/-- Status carried by an outcome. -/
def statusOf : CommitOutcome → CommitStatus
  | .noop => .noop
  | .failed => .failed
  | .ok _ _ _ => .ok

/-- Modelled from the spec: the pending custom-action map overlaid on the
previously committed table (spec.md section 4.2 step 2). -/
def overlay (pa ca : List (Int × SemanticsCustomAction)) :
    List (Int × SemanticsCustomAction) :=
  pa.foldl (fun acc p => ainsert acc p.1 p.2) ca

/-- Modelled from the spec: the merged node map of a commit - the existing
tree's nodes overridden by every pending record converted to node data
(spec.md section 4.2 step 2). -/
def mergedMap (t : AXTree) (pn : List (Int × SemanticsNode))
    (table : List (Int × SemanticsCustomAction)) : List (Int × AXNodeData) :=
  pn.foldl (fun m p => ainsert m p.1 (convertNode p.2 table)) t.nodes

/-- Modelled from the spec: the commit decision (spec.md section 4.2):
return immediately when both pending maps are empty; otherwise build the
merged update, validate it structurally, and either fail without any
mutation or produce the new tree, the new custom-action table and the
event sequence. -/
def commitCore (t : AXTree) (pn : List (Int × SemanticsNode))
    (pa ca : List (Int × SemanticsCustomAction)) : CommitOutcome :=
  if pn = [] ∧ pa = [] then .noop
  else if structOk (mergedMap t pn (overlay pa ca)) (akeys t.nodes) then
    .ok (newTreeOf (mergedMap t pn (overlay pa ca))) (overlay pa ca)
      (eventsOf t (newTreeOf (mergedMap t pn (overlay pa ca))))
  else .failed

/-- Delegate creations of a commit: one fresh token per created id. -/
def regAdd (next : Nat) : List Int → List (Int × Nat)
  | [] => []
  | k :: ks => (k, next) :: regAdd (next + 1) ks

/-- Key predicate of the registry erase pass: keep an entry when its key is
not among the deleted ids. -/
def notDeletedKey (t nt : AXTree) : Int → Bool :=
  fun i => decide (i ∉ deletedIds t nt)

/-- Modelled from the spec: registry update of a successful commit - erase
every deleted id's strong reference, then have the factory create one
fresh delegate per created id (spec.md section 4.4). -/
def registryAfter (reg : List (Int × Nat)) (t nt : AXTree) (next : Nat) :
    List (Int × Nat) :=
  reg.filter (fun p => notDeletedKey t nt p.1) ++ regAdd next (createdIds t nt)

/-- Modelled from the spec: state change of a successful commit - install
the new tree and custom-action table, update the registry, clear both
staging maps unconditionally, accumulate the events, and track the focused
id when the commit assigned focus (spec.md section 4.2 steps 4-7). -/
def applyOk (s : BridgeState) (nt : AXTree)
    (nca : List (Int × SemanticsCustomAction)) (evs : List AXEvent) : BridgeState :=
  { s with
    tree := nt
    registry := registryAfter s.registry s.tree nt s.nextDelegate
    nextDelegate := s.nextDelegate + (createdIds s.tree nt).length
    pendingNodes := []
    pendingActions := []
    committedActions := nca
    pendingEvents := s.pendingEvents ++ evs
    lastFocusedId :=
      if nt.data.focusId ≠ -1 ∧ nt.data.focusId ≠ s.tree.data.focusId then
        nt.data.focusId
      else s.lastFocusedId }

/-- CommitUpdates (header lines 219-227): flush the pending updates and
apply them to the bridge.  Modelled from the spec: with no pending updates
it does nothing; a structurally invalid batch fails without mutating any
visible state and retains the staging buffer; a valid batch is applied
atomically, the staging buffer is cleared, and the generated events are
returned and accumulated (spec.md section 4.2, section 7). -/
def commitUpdates (s : BridgeState) : BridgeState × List AXEvent × CommitStatus :=
  match commitCore s.tree s.pendingNodes s.pendingActions s.committedActions with
  | .noop => (s, [], .noop)
  | .failed => (s, [], .failed)
  | .ok nt nca evs => (applyOk s nt nca evs, evs, .ok)

/-- GetFlutterPlatformNodeDelegateFromID (header lines 229-238): weak
lookup of the delegate registered for an id; `none` models the
expired/absent weak_ptr returned when the id does not exist or has been
removed from the tree.  Total: it never throws. -/
def getFlutterPlatformNodeDelegateFromID (s : BridgeState) (id : Int) : Option Nat :=
  alookup s.registry id

/-- GetAXTreeData (header lines 240-244). -/
def getAXTreeData (s : BridgeState) : AXTreeData := s.tree.data

/-- GetPendingEvents (header lines 246-252): all accumulated events. -/
def getPendingEvents (s : BridgeState) : List AXEvent := s.pendingEvents

/-- SetLastFocusedId (header line 361). -/
def setLastFocusedId (s : BridgeState) (id : Int) : BridgeState :=
  { s with lastFocusedId := id }

/-- GetLastFocusedId (header lines 363-364). -/
def getLastFocusedId (s : BridgeState) : Int := s.lastFocusedId

/-! ## Operation sequences -/

/-- One public mutating operation of the bridge. -/
inductive Op where
  | addNode (n : SemanticsNode)
  | addAction (a : SemanticsCustomAction)
  | commit
deriving Repr

/-- Apply one operation to a bridge state. -/
def stepOp (s : BridgeState) : Op → BridgeState
  | .addNode n => addFlutterSemanticsNodeUpdate s n
  | .addAction a => addFlutterSemanticsCustomActionUpdate s a
  | .commit => (commitUpdates s).1

/-- The bridge state reached from a fresh bridge by a sequence of public
operations. -/
def runOps (ops : List Op) : BridgeState :=
  ops.foldl stepOp initialBridge

/-- Merged node map that a commit of this state validates and applies. -/
def mergedOf (s : BridgeState) : List (Int × AXNodeData) :=
  mergedMap s.tree s.pendingNodes (overlay s.pendingActions s.committedActions)

/-! ## Concrete example states used to exercise the theorems -/

/-- Example: a fresh bridge with one staged root whose child list references
the id 99, which exists neither in the batch nor in the tree. -/
def exOrphan : BridgeState :=
  addFlutterSemanticsNodeUpdate initialBridge { id := 0, childrenInTraversalOrder := [99] }

/-- Example: a fresh bridge with a valid two-node batch staged. -/
def exTwo : BridgeState :=
  addFlutterSemanticsNodeUpdate
    (addFlutterSemanticsNodeUpdate initialBridge
      { id := 0, childrenInTraversalOrder := [1], label := "App" })
    { id := 1, label := "Button" }

/-- Example: a committed tree 0 -> [1, 2], 1 -> [3], with a staged batch
that only moves node 3 from parent 1 to parent 2. -/
def exReparent : BridgeState :=
  { tree := { nodes := [(0, { childIds := [1, 2] }), (1, { childIds := [3] }),
                        (2, {}), (3, {})] }
    registry := [(0, 20), (1, 21), (2, 22), (3, 23)]
    nextDelegate := 24
    pendingNodes := [(1, { id := 1 }),
                     (2, { id := 2, childrenInTraversalOrder := [3] })] }

/-- Example: a committed tree 0 -> [1], 1 -> [2, 3], with a staged batch
that detaches node 1, deleting the subtree {1, 2, 3}. -/
def exDelete : BridgeState :=
  { tree := { nodes := [(0, { childIds := [1] }), (1, { childIds := [2, 3] }),
                        (2, {}), (3, {})] }
    registry := [(0, 0), (1, 1), (2, 2), (3, 3)]
    nextDelegate := 4
    pendingNodes := [(0, { id := 0 })] }

/-- Example: a fresh bridge with a staged batch containing a detached
two-node cycle - root 0 with no children, plus 1 -> [2] and 2 -> [1]. -/
def exCycle : BridgeState :=
  { pendingNodes := [(0, { id := 0 }),
                     (1, { id := 1, childrenInTraversalOrder := [2] }),
                     (2, { id := 2, childrenInTraversalOrder := [1] })] }

/-- Example: a fresh bridge with a staged batch adding the root and a
second, parentless record with id 7 that nothing references. -/
def exSecondRoot : BridgeState :=
  { pendingNodes := [(0, { id := 0 }), (7, { id := 7 })] }

/-- Example: a fresh bridge with a staged root that references the
custom-action id 5, which was never added. -/
def exDangling : BridgeState :=
  addFlutterSemanticsNodeUpdate initialBridge { id := 0, customAccessibilityActions := [5] }

/-- Example operation sequence: add custom action 5, add a root referencing
it, commit. -/
def exActionOps : List Op :=
  [ .addAction { id := 5, label := "dismiss" },
    .addNode { id := 0, customAccessibilityActions := [5] },
    .commit ]

/-! ## Association-list lemmas -/

theorem alookup_isSome_iff {α : Type} (m : List (Int × α)) (k : Int) :
    (alookup m k).isSome = true ↔ k ∈ akeys m := by
  induction m with
  | nil => simp [alookup, akeys]
  | cons p ps ih =>
    by_cases h : p.1 = k
    · simp [alookup, akeys, h]
    · simp only [alookup, akeys, List.map_cons, List.mem_cons, if_neg h]
      rw [ih]
      constructor
      · intro hm; exact Or.inr hm
      · rintro (hk | hk)
        · exact absurd hk.symm h
        · exact hk

theorem alookup_ainsert_self {α : Type} (m : List (Int × α)) (k : Int) (v : α) :
    alookup (ainsert m k v) k = some v := by
  induction m with
  | nil => simp [ainsert, alookup]
  | cons p ps ih =>
    by_cases h : p.1 = k
    · simp [ainsert, alookup, h]
    · simp [ainsert, alookup, h, ih]

theorem alookup_ainsert_ne {α : Type} (m : List (Int × α)) (k j : Int) (v : α)
    (h : j ≠ k) : alookup (ainsert m k v) j = alookup m j := by
  have hk : ¬ k = j := fun hh => h hh.symm
  induction m with
  | nil => simp [ainsert, alookup, hk]
  | cons p ps ih =>
    by_cases hp : p.1 = k
    · subst hp
      simp [ainsert, alookup, hk]
    · simp only [ainsert, if_neg hp, alookup]
      by_cases hj : p.1 = j
      · simp [hj]
      · simp [hj, ih]

theorem alookup_append_some {α : Type} (a b : List (Int × α)) (k : Int) (v : α)
    (h : alookup a k = some v) : alookup (a ++ b) k = some v := by
  induction a with
  | nil => simp [alookup] at h
  | cons p ps ih =>
    by_cases hp : p.1 = k
    · simpa [alookup, hp] using h
    · simp only [alookup, if_neg hp] at h ⊢
      exact ih h

theorem alookup_append_none {α : Type} (a b : List (Int × α)) (k : Int)
    (h : alookup a k = none) : alookup (a ++ b) k = alookup b k := by
  induction a with
  | nil => simp [alookup]
  | cons p ps ih =>
    by_cases hp : p.1 = k
    · simp [alookup, hp] at h
    · simp only [alookup, if_neg hp] at h ⊢
      exact ih h

theorem alookup_filter_key {α : Type} (m : List (Int × α)) (q : Int → Bool) (k : Int) :
    alookup (m.filter (fun p => q p.1)) k =
      if q k then alookup m k else none := by
  induction m with
  | nil => simp [alookup]
  | cons p ps ih =>
    by_cases hp : p.1 = k
    · subst hp
      cases hq : q p.1 with
      | false => simp [List.filter_cons, hq, ih, alookup]
      | true => simp [List.filter_cons, hq, alookup]
    · cases hq : q p.1 with
      | false =>
        simp only [List.filter_cons, hq, Bool.false_eq_true, if_false, ih, alookup,
          if_neg hp]
      | true =>
        simp only [List.filter_cons, hq, if_true, alookup, if_neg hp, ih]

theorem alookup_regAdd_not_mem (next : Nat) (ks : List Int) (k : Int)
    (h : k ∉ ks) : alookup (regAdd next ks) k = none := by
  induction ks generalizing next with
  | nil => simp [regAdd, alookup]
  | cons a as ih =>
    simp only [List.mem_cons, not_or] at h
    have hak : ¬ a = k := fun hh => h.1 hh.symm
    simp [regAdd, alookup, hak, ih _ h.2]

theorem alookup_regAdd_isSome (next : Nat) (ks : List Int) (k : Int) :
    (alookup (regAdd next ks) k).isSome = true ↔ k ∈ ks := by
  induction ks generalizing next with
  | nil => simp [regAdd, alookup]
  | cons a as ih =>
    by_cases h : a = k
    · simp [regAdd, alookup, h]
    · simp only [regAdd, alookup, if_neg h, List.mem_cons]
      rw [ih]
      constructor
      · intro hm; exact Or.inr hm
      · rintro (hk | hk)
        · exact absurd hk.symm h
        · exact hk

theorem alookup_eq_some_mem {α : Type} (m : List (Int × α)) (k : Int) (v : α)
    (h : alookup m k = some v) : (k, v) ∈ m := by
  induction m with
  | nil => simp [alookup] at h
  | cons p ps ih =>
    obtain ⟨a, b⟩ := p
    by_cases hp : a = k
    · subst hp
      simp only [alookup, if_pos rfl] at h
      cases h
      exact List.mem_cons_self _ _
    · simp only [alookup, if_neg hp] at h
      exact List.mem_cons_of_mem _ (ih h)

theorem alookup_ainsert_isSome_mono {α : Type} (m : List (Int × α)) (k j : Int)
    (v : α) (h : (alookup m j).isSome = true) :
    (alookup (ainsert m k v) j).isSome = true := by
  by_cases hj : j = k
  · subst hj
    simp [alookup_ainsert_self]
  · rwa [alookup_ainsert_ne _ _ _ _ hj]

theorem alookup_overlay_isSome_mono (pa ca : List (Int × SemanticsCustomAction))
    (a : Int) (h : (alookup ca a).isSome = true) :
    (alookup (overlay pa ca) a).isSome = true := by
  induction pa generalizing ca with
  | nil => simpa [overlay] using h
  | cons p ps ih =>
    show (alookup (overlay ps (ainsert ca p.1 p.2)) a).isSome = true
    exact ih _ (alookup_ainsert_isSome_mono _ _ _ _ h)

theorem alookup_foldl_ainsert {α β : Type} (f : β → α) (l : List (Int × β))
    (base : List (Int × α)) (k : Int) (d : α)
    (h : alookup (l.foldl (fun m p => ainsert m p.1 (f p.2)) base) k = some d) :
    (∃ p ∈ l, p.1 = k ∧ d = f p.2) ∨ alookup base k = some d := by
  induction l generalizing base with
  | nil => exact Or.inr h
  | cons p ps ih =>
    rcases ih (ainsert base p.1 (f p.2)) h with hl | hb
    · rcases hl with ⟨q, hq, hqk, hqd⟩
      exact Or.inl ⟨q, List.mem_cons_of_mem _ hq, hqk, hqd⟩
    · by_cases hp : p.1 = k
      · subst hp
        rw [alookup_ainsert_self] at hb
        cases hb
        exact Or.inl ⟨p, List.mem_cons_self p ps, rfl, rfl⟩
      · rw [alookup_ainsert_ne _ _ _ _ (fun hh => hp hh.symm)] at hb
        exact Or.inr hb

theorem alookup_append_isSome {α : Type} (a b : List (Int × α)) (k : Int) :
    (alookup (a ++ b) k).isSome = true ↔
      (alookup a k).isSome = true ∨ (alookup b k).isSome = true := by
  cases h : alookup a k with
  | some v => simp [alookup_append_some a b k v h]
  | none => simp [alookup_append_none a b k h]

/-! ## Reachability lemmas -/

theorem reachAux_subset (cm : List (Int × List Int)) :
    ∀ (fuel : Nat) (rem front : List Int) (x : Int),
      x ∈ reachAux cm fuel rem front → x ∈ rem := by
  intro fuel
  induction fuel with
  | zero => intro rem front x hx; simp [reachAux] at hx
  | succ fuel ih =>
    intro rem front x hx
    match front with
    | [] => simp [reachAux] at hx
    | n :: fr =>
      by_cases hn : n ∈ rem
      · simp only [reachAux, if_pos hn, List.mem_cons] at hx
        rcases hx with hx | hx
        · exact hx ▸ hn
        · have := ih _ _ _ hx
          exact (List.mem_filter.mp this).1
      · simp only [reachAux, if_neg hn] at hx
        exact ih _ _ _ hx

theorem reachAux_nodup (cm : List (Int × List Int)) :
    ∀ (fuel : Nat) (rem front : List Int), (reachAux cm fuel rem front).Nodup := by
  intro fuel
  induction fuel with
  | zero => intro rem front; simp [reachAux]
  | succ fuel ih =>
    intro rem front
    match front with
    | [] => simp [reachAux]
    | n :: fr =>
      by_cases hn : n ∈ rem
      · simp only [reachAux, if_pos hn]
        refine List.nodup_cons.mpr ⟨?_, ih _ _⟩
        intro hmem
        have := reachAux_subset cm fuel _ _ _ hmem
        have := (List.mem_filter.mp this).2
        simp at this
      · simp only [reachAux, if_neg hn]
        exact ih _ _

theorem reachList_nodup (cm : List (Int × List Int)) : (reachList cm).Nodup :=
  reachAux_nodup cm _ _ _

/-! ## Child-map lemmas -/

theorem akeys_childMapOf (m : List (Int × AXNodeData)) :
    (childMapOf m).map (·.1) = akeys m := by
  simp [childMapOf, akeys, List.map_map, Function.comp]

theorem alookup_childMapOf (m : List (Int × AXNodeData)) (i : Int) :
    alookup (childMapOf m) i = (alookup m i).map (·.childIds) := by
  induction m with
  | nil => simp [childMapOf, alookup]
  | cons p ps ih =>
    by_cases hp : p.1 = i
    · simp [childMapOf, alookup, hp]
    · simp only [childMapOf, List.map_cons, alookup, if_neg hp]
      exact ih

theorem childMapOf_ainsert (m : List (Int × AXNodeData)) (k : Int) (d : AXNodeData) :
    childMapOf (ainsert m k d) = ainsert (childMapOf m) k d.childIds := by
  induction m with
  | nil => simp [childMapOf, ainsert]
  | cons p ps ih =>
    by_cases hp : p.1 = k
    · simp [childMapOf, ainsert, hp]
    · simp only [childMapOf, List.map_cons, ainsert, if_neg hp]
      congr 1

theorem childMapOf_foldl (pn : List (Int × SemanticsNode))
    (table : List (Int × SemanticsCustomAction)) (base : List (Int × AXNodeData)) :
    childMapOf (pn.foldl (fun m p => ainsert m p.1 (convertNode p.2 table)) base) =
      pn.foldl (fun cm p => ainsert cm p.1 p.2.childrenInTraversalOrder)
        (childMapOf base) := by
  induction pn generalizing base with
  | nil => rfl
  | cons p ps ih =>
    simp only [List.foldl_cons]
    rw [ih, childMapOf_ainsert]
    rfl

theorem childMapOf_mergedMap (t : AXTree) (pn : List (Int × SemanticsNode))
    (table : List (Int × SemanticsCustomAction)) :
    childMapOf (mergedMap t pn table) =
      pn.foldl (fun cm p => ainsert cm p.1 p.2.childrenInTraversalOrder)
        (childMapOf t.nodes) :=
  childMapOf_foldl pn table t.nodes

/-! ## New-tree lemmas -/

theorem akeys_filterMap (R : List Int) (m : List (Int × AXNodeData)) :
    akeys (R.filterMap (fun i => (alookup m i).map (fun d => (i, d)))) =
      R.filter (fun i => (alookup m i).isSome) := by
  induction R with
  | nil => simp [akeys]
  | cons i R ih =>
    cases h : alookup m i with
    | none => simp [List.filterMap_cons, h, List.filter_cons, ih]
    | some d =>
      have ih2 := ih
      simp only [akeys] at ih2
      simp [List.filterMap_cons, h, List.filter_cons, akeys, ih2]

theorem akeys_newTree (m : List (Int × AXNodeData)) :
    akeys (newTreeOf m).nodes = (reachOf m).filter (fun i => (alookup m i).isSome) :=
  akeys_filterMap _ m

theorem akeys_newTree_nodup (m : List (Int × AXNodeData)) :
    (akeys (newTreeOf m).nodes).Nodup := by
  rw [akeys_newTree]
  exact (reachList_nodup _).filter _

theorem alookup_newTree (m : List (Int × AXNodeData)) (i : Int) (d : AXNodeData)
    (h : alookup (newTreeOf m).nodes i = some d) : alookup m i = some d := by
  have hm := alookup_eq_some_mem _ _ _ h
  simp only [newTreeOf, List.mem_filterMap] at hm
  rcases hm with ⟨j, _, hj⟩
  cases hjl : alookup m j with
  | none => rw [hjl] at hj; simp at hj
  | some e =>
    rw [hjl] at hj
    have hj2 : some (j, e) = some (i, d) := hj
    injection hj2 with hj3
    injection hj3 with hj4 hj5
    subst hj4
    rw [← hj5]
    exact hjl

/-! ## Event-list helper lemmas -/

theorem mem_map_mk_self (l : List Int) (k : AXEventKind) (i : Int) :
    (AXEvent.mk i k) ∈ l.map (fun j => AXEvent.mk j k) ↔ i ∈ l := by
  simp [List.mem_map, AXEvent.mk.injEq]

theorem not_mem_map_mk_ne (l : List Int) (k k2 : AXEventKind) (i : Int)
    (h : k ≠ k2) : (AXEvent.mk i k2) ∉ l.map (fun j => AXEvent.mk j k) := by
  intro hmem
  rcases List.mem_map.mp hmem with ⟨j, _, hj⟩
  exact h (congrArg AXEvent.kind hj)

theorem count_map_mk_ne (l : List Int) (k k2 : AXEventKind) (i : Int)
    (h : k ≠ k2) : (l.map (fun j => AXEvent.mk j k)).count ⟨i, k2⟩ = 0 :=
  List.count_eq_zero.mpr (not_mem_map_mk_ne l k k2 i h)

theorem count_map_mk_self (l : List Int) (k : AXEventKind) (i : Int) :
    (l.map (fun j => AXEvent.mk j k)).count ⟨i, k⟩ = l.count i := by
  have hinj : Function.Injective (fun j => AXEvent.mk j k) := by
    intro a b hab
    exact congrArg AXEvent.target hab
  exact List.count_map_of_injective l _ hinj i

/-! ## Commit decomposition lemmas -/

theorem commitUpdates_status (s : BridgeState) :
    (commitUpdates s).2.2 =
      statusOf (commitCore s.tree s.pendingNodes s.pendingActions s.committedActions) := by
  cases hc : commitCore s.tree s.pendingNodes s.pendingActions s.committedActions <;>
    simp [commitUpdates, hc, statusOf]

theorem commitCore_ok_elim (t : AXTree) (pn : List (Int × SemanticsNode))
    (pa ca : List (Int × SemanticsCustomAction)) (nt : AXTree)
    (nca : List (Int × SemanticsCustomAction)) (evs : List AXEvent)
    (h : commitCore t pn pa ca = .ok nt nca evs) :
    nt = newTreeOf (mergedMap t pn (overlay pa ca))
    ∧ nca = overlay pa ca
    ∧ evs = eventsOf t (newTreeOf (mergedMap t pn (overlay pa ca)))
    ∧ structOk (mergedMap t pn (overlay pa ca)) (akeys t.nodes) = true := by
  unfold commitCore at h
  split at h
  · simp at h
  · split at h
    · rename_i hok
      injection h with h1 h2 h3
      exact ⟨h1.symm, h2.symm, h3.symm, hok⟩
    · simp at h

/-! ## Membership characterizations of the commit id sets -/

theorem mem_deletedIds (t nt : AXTree) (x : Int) :
    x ∈ deletedIds t nt ↔ x ∈ akeys t.nodes ∧ x ∉ akeys nt.nodes := by
  simp [deletedIds, List.mem_filter]

theorem mem_createdIds (t nt : AXTree) (x : Int) :
    x ∈ createdIds t nt ↔ x ∈ akeys nt.nodes ∧ x ∉ akeys t.nodes := by
  simp [createdIds, List.mem_filter]

theorem mem_survivorIds (t nt : AXTree) (x : Int) :
    x ∈ survivorIds t nt ↔ x ∈ akeys nt.nodes ∧ x ∈ akeys t.nodes := by
  simp [survivorIds, List.mem_filter]

/-! ## Registry-update lemmas -/

theorem alookup_registryAfter_deleted (reg : List (Int × Nat)) (t nt : AXTree)
    (next : Nat) (x : Int) (hx : x ∈ deletedIds t nt) :
    alookup (registryAfter reg t nt next) x = none := by
  unfold registryAfter
  have h1 : alookup (reg.filter (fun p => notDeletedKey t nt p.1)) x = none := by
    rw [alookup_filter_key reg (notDeletedKey t nt) x]
    simp [notDeletedKey, hx]
  rw [alookup_append_none _ _ _ h1]
  apply alookup_regAdd_not_mem
  intro hc
  exact ((mem_createdIds t nt x).mp hc).2 ((mem_deletedIds t nt x).mp hx).1

theorem alookup_registryAfter_untouched (reg : List (Int × Nat)) (t nt : AXTree)
    (next : Nat) (x : Int) (hxD : x ∉ deletedIds t nt) (hxC : x ∉ createdIds t nt) :
    alookup (registryAfter reg t nt next) x = alookup reg x := by
  unfold registryAfter
  have h1 : alookup (reg.filter (fun p => notDeletedKey t nt p.1)) x = alookup reg x := by
    rw [alookup_filter_key reg (notDeletedKey t nt) x]
    simp [notDeletedKey, hxD]
  cases hr : alookup reg x with
  | some v =>
    rw [hr] at h1
    exact alookup_append_some _ _ _ _ h1
  | none =>
    rw [hr] at h1
    rw [alookup_append_none _ _ _ h1]
    exact alookup_regAdd_not_mem _ _ _ hxC

theorem alookup_registryAfter_isSome (reg : List (Int × Nat)) (t nt : AXTree)
    (next : Nat) (x : Int) :
    (alookup (registryAfter reg t nt next) x).isSome = true ↔
      ((x ∉ deletedIds t nt ∧ (alookup reg x).isSome = true) ∨ x ∈ createdIds t nt) := by
  unfold registryAfter
  rw [alookup_append_isSome, alookup_filter_key reg (notDeletedKey t nt) x,
    alookup_regAdd_isSome]
  by_cases hD : x ∈ deletedIds t nt
  · simp [notDeletedKey, hD]
  · simp [notDeletedKey, hD]

/-! ## Event-membership elimination -/

theorem mem_map_mk_elim (l : List Int) (k k2 : AXEventKind) (i : Int)
    (h : AXEvent.mk i k2 ∈ l.map (fun j => AXEvent.mk j k)) : k = k2 ∧ i ∈ l := by
  rcases List.mem_map.mp h with ⟨j, hj, hjeq⟩
  injection hjeq with h1 h2
  exact ⟨h2, h1 ▸ hj⟩

theorem mem_eventsOf_kind (t nt : AXTree) (e : AXEvent) (h : e ∈ eventsOf t nt) :
    (e.kind = .subtreeWillBeDeleted ∧
       e.target ∈ (deletedIds t nt).filter (fun i => decide (deletedKids t nt i ≠ [])))
    ∨ (e.kind = .nodeDeleted ∧ e.target ∈ deletedIds t nt)
    ∨ (e.kind = .nodeCreated ∧ e.target ∈ createdIds t nt)
    ∨ (e.kind = .nodeReparented ∧ e.target ∈ survivorIds t nt)
    ∨ (e.kind = .roleChanged ∧ e.target ∈ survivorIds t nt)
    ∨ (e.kind = .valueChanged ∧ e.target ∈ survivorIds t nt)
    ∨ (e.kind = .childrenChanged ∧ e.target ∈ survivorIds t nt)
    ∨ e.kind = .focusChanged := by
  unfold eventsOf eventsTail at h
  simp only [List.mem_append] at h
  rcases h with (h | ((((((h | h) | h) | h) | h) | h) | h))
  · rcases List.mem_map.mp h with ⟨j, hj, rfl⟩
    exact Or.inl ⟨rfl, hj⟩
  · rcases List.mem_map.mp h with ⟨j, hj, rfl⟩
    exact Or.inr (Or.inl ⟨rfl, hj⟩)
  · rcases List.mem_map.mp h with ⟨j, hj, rfl⟩
    exact Or.inr (Or.inr (Or.inl ⟨rfl, hj⟩))
  · rcases List.mem_map.mp h with ⟨j, hj, rfl⟩
    exact Or.inr (Or.inr (Or.inr (Or.inl ⟨rfl, List.mem_of_mem_filter hj⟩)))
  · rcases List.mem_map.mp h with ⟨j, hj, rfl⟩
    exact Or.inr (Or.inr (Or.inr (Or.inr (Or.inl ⟨rfl, List.mem_of_mem_filter hj⟩))))
  · rcases List.mem_map.mp h with ⟨j, hj, rfl⟩
    exact Or.inr (Or.inr (Or.inr (Or.inr (Or.inr (Or.inl
      ⟨rfl, List.mem_of_mem_filter hj⟩)))))
  · rcases List.mem_map.mp h with ⟨j, hj, rfl⟩
    exact Or.inr (Or.inr (Or.inr (Or.inr (Or.inr (Or.inr (Or.inl
      ⟨rfl, List.mem_of_mem_filter hj⟩))))))
  · by_cases hf : t.data.focusId ≠ nt.data.focusId
    · rw [if_pos hf] at h
      have : e = AXEvent.mk nt.data.focusId .focusChanged := List.mem_singleton.mp h
      subst this
      exact Or.inr (Or.inr (Or.inr (Or.inr (Or.inr (Or.inr (Or.inr rfl))))))
    · rw [if_neg hf] at h
      simp at h

/-! ## Acyclicity-check lemmas -/

theorem peelIter_avoids_cycle (cm : List (Int × List Int)) (cyc : List Int)
    (hcyc : ∀ x ∈ cyc, ∃ y ∈ cyc, y ∈ childrenIn cm x) :
    ∀ (fuel : Nat) (peeled : List Int), (∀ x ∈ cyc, x ∉ peeled) →
      ∀ x ∈ cyc, x ∉ peelIter cm fuel peeled := by
  intro fuel
  induction fuel with
  | zero =>
    intro peeled h x hx
    exact h x hx
  | succ fuel ih =>
    intro peeled h x hx
    refine ih (peelStep cm peeled) ?_ x hx
    intro z hz hzstep
    rcases List.mem_append.mp hzstep with hz1 | hz2
    · exact h z hz hz1
    · have hz3 := (List.mem_filter.mp hz2).2
      rw [Bool.and_eq_true] at hz3
      obtain ⟨y, hy, hyc⟩ := hcyc z hz
      have hyp := List.all_eq_true.mp hz3.2 y hyc
      simp only [decide_eq_true_eq] at hyp
      exact h y hy hyp

/-! ## Registry/tree key agreement along operation sequences -/

theorem stepOp_registry_inv (s : BridgeState)
    (h : ∀ j, (alookup s.registry j).isSome = true ↔ j ∈ akeys s.tree.nodes)
    (op : Op) :
    ∀ j, (alookup (stepOp s op).registry j).isSome = true
      ↔ j ∈ akeys (stepOp s op).tree.nodes := by
  cases op with
  | addNode n => exact h
  | addAction a => exact h
  | commit =>
    show ∀ j, (alookup (commitUpdates s).1.registry j).isSome = true
      ↔ j ∈ akeys (commitUpdates s).1.tree.nodes
    cases hc : commitCore s.tree s.pendingNodes s.pendingActions s.committedActions with
    | noop => simpa [commitUpdates, hc] using h
    | failed => simpa [commitUpdates, hc] using h
    | ok nt nca evs =>
      have hS1 : (commitUpdates s).1 = applyOk s nt nca evs := by
        simp [commitUpdates, hc]
      rw [hS1]
      intro j
      show (alookup (registryAfter s.registry s.tree nt s.nextDelegate) j).isSome = true
        ↔ j ∈ akeys nt.nodes
      rw [alookup_registryAfter_isSome, h j, mem_deletedIds, mem_createdIds]
      by_cases h1 : j ∈ akeys s.tree.nodes <;> by_cases h2 : j ∈ akeys nt.nodes <;>
        simp [h1, h2]

theorem runOps_registry_inv (ops : List Op) :
    ∀ j, (alookup (runOps ops).registry j).isSome = true
      ↔ j ∈ akeys (runOps ops).tree.nodes := by
  suffices hgen : ∀ (l : List Op) (s : BridgeState),
      (∀ j, (alookup s.registry j).isSome = true ↔ j ∈ akeys s.tree.nodes) →
      ∀ j, (alookup (l.foldl stepOp s).registry j).isSome = true
        ↔ j ∈ akeys (l.foldl stepOp s).tree.nodes by
    refine hgen ops initialBridge ?_
    intro j
    simp [initialBridge, alookup, akeys]
  intro l
  induction l with
  | nil => intro s hs; exact hs
  | cons op rest ih =>
    intro s hs
    exact ih _ (stepOp_registry_inv s hs op)

/-! ## Claim theorems -/

/-- C10: before any commit has assigned keyboard focus and before any call
to SetLastFocusedId, GetLastFocusedId returns the invalid-node-id sentinel
`ui::AXNode::kInvalidAXID`, which differs from the reserved root id 0 - a
fresh bridge reports no focused node rather than focus on the root. -/
theorem fresh_bridge_no_focus :
    getLastFocusedId initialBridge = kInvalidAXID ∧ kInvalidAXID ≠ kRootNodeId :=
  ⟨rfl, by decide⟩

/-- C6: AddFlutterSemanticsNodeUpdate and
AddFlutterSemanticsCustomActionUpdate insert-or-replace the record keyed by
its id in the corresponding pending mapping (so lookup afterwards yields
the new record, and every other id is untouched - only the last record per
id before Commit matters), perform no structural validation, and leave the
tree model, the registry and the other pending mapping completely
unchanged. -/
theorem add_updates_stage_only (s : BridgeState) (n : SemanticsNode)
    (a : SemanticsCustomAction) :
    alookup (addFlutterSemanticsNodeUpdate s n).pendingNodes n.id = some n
    ∧ (∀ j, j ≠ n.id →
        alookup (addFlutterSemanticsNodeUpdate s n).pendingNodes j
          = alookup s.pendingNodes j)
    ∧ (addFlutterSemanticsNodeUpdate s n).tree = s.tree
    ∧ (addFlutterSemanticsNodeUpdate s n).registry = s.registry
    ∧ (addFlutterSemanticsNodeUpdate s n).pendingActions = s.pendingActions
    ∧ alookup (addFlutterSemanticsCustomActionUpdate s a).pendingActions a.id = some a
    ∧ (∀ j, j ≠ a.id →
        alookup (addFlutterSemanticsCustomActionUpdate s a).pendingActions j
          = alookup s.pendingActions j)
    ∧ (addFlutterSemanticsCustomActionUpdate s a).tree = s.tree
    ∧ (addFlutterSemanticsCustomActionUpdate s a).registry = s.registry
    ∧ (addFlutterSemanticsCustomActionUpdate s a).pendingNodes = s.pendingNodes :=
  ⟨alookup_ainsert_self _ _ _,
   fun _ hj => alookup_ainsert_ne _ _ _ _ hj,
   rfl, rfl, rfl,
   alookup_ainsert_self _ _ _,
   fun _ hj => alookup_ainsert_ne _ _ _ _ hj,
   rfl, rfl, rfl⟩

/-- Witness for C6 at a concrete state: staging node 0 on a fresh bridge
stores the record under id 0, leaves id 7 absent and the tree empty. -/
theorem add_updates_stage_only_witness :
    alookup (addFlutterSemanticsNodeUpdate initialBridge
        { id := 0, childrenInTraversalOrder := [99] }).pendingNodes 0
      = some { id := 0, childrenInTraversalOrder := [99] }
    ∧ alookup (addFlutterSemanticsNodeUpdate initialBridge
        { id := 0, childrenInTraversalOrder := [99] }).pendingNodes 7
      = alookup initialBridge.pendingNodes 7
    ∧ (addFlutterSemanticsNodeUpdate initialBridge
        { id := 0, childrenInTraversalOrder := [99] }).tree = initialBridge.tree := by
  have h := add_updates_stage_only initialBridge
    { id := 0, childrenInTraversalOrder := [99] } { id := 5 }
  exact ⟨h.1, h.2.1 7 (by decide), h.2.2.1⟩

/-- C8: event generation is deterministic - two commits fed identical
batches from identical tree states and identical committed custom-action
tables produce identical ordered event sequences (and statuses), no matter
how the rest of the bridge state (registry, delegate counter, focus,
previously accumulated events) differs. -/
theorem commit_events_deterministic (s₁ s₂ : BridgeState)
    (ht : s₁.tree = s₂.tree) (hpn : s₁.pendingNodes = s₂.pendingNodes)
    (hpa : s₁.pendingActions = s₂.pendingActions)
    (hca : s₁.committedActions = s₂.committedActions) :
    (commitUpdates s₁).2 = (commitUpdates s₂).2 := by
  cases hc : commitCore s₂.tree s₂.pendingNodes s₂.pendingActions s₂.committedActions with
  | noop => simp [commitUpdates, ht, hpn, hpa, hca, hc]
  | failed => simp [commitUpdates, ht, hpn, hpa, hca, hc]
  | ok nt nca evs => simp [commitUpdates, ht, hpn, hpa, hca, hc]

/-- Witness for C8: two bridges sharing tree, staging buffer and committed
actions but differing in registry, delegate counter, last-focused id and
accumulated events produce the same events and status. -/
theorem commit_events_deterministic_witness :
    (commitUpdates { pendingNodes := [(0, { id := 0 })], registry := [(9, 9)],
                     nextDelegate := 3, lastFocusedId := 7,
                     pendingEvents := [⟨0, .nodeCreated⟩] }).2
      = (commitUpdates { pendingNodes := [(0, { id := 0 })] }).2 :=
  commit_events_deterministic _ _ rfl rfl rfl rfl

/-- C2: Commit is idempotent over an empty staging buffer - whatever the
bridge state, running Commit a second time with no intervening Add calls
leaves the state exactly as after the first Commit and generates an empty
event sequence (the second call is a no-op). -/
theorem commit_idempotent (s : BridgeState) :
    (commitUpdates (commitUpdates s).1).1 = (commitUpdates s).1
    ∧ (commitUpdates (commitUpdates s).1).2.1 = [] := by
  cases hc : commitCore s.tree s.pendingNodes s.pendingActions s.committedActions with
  | noop => simp [commitUpdates, hc]
  | failed => simp [commitUpdates, hc]
  | ok nt nca evs =>
    have h1 : (commitUpdates s).1 = applyOk s nt nca evs := by
      simp [commitUpdates, hc]
    rw [h1]
    have h2 : commitCore (applyOk s nt nca evs).tree (applyOk s nt nca evs).pendingNodes
        (applyOk s nt nca evs).pendingActions (applyOk s nt nca evs).committedActions
        = .noop := by
      have hpn : (applyOk s nt nca evs).pendingNodes = [] := rfl
      have hpa : (applyOk s nt nca evs).pendingActions = [] := rfl
      rw [hpn, hpa]
      unfold commitCore
      simp
    simp [commitUpdates, h2]

/-- C1: commit is atomic with respect to structural validation, and every
malformed-batch shape the claim names falsifies validation.  First, a
merged record whose child list references an id absent from both the batch
and the existing tree fails validation, whether or not the record is
reachable.  Second, a batch containing a cycle fails validation: a cycle
is witnessed by a nonempty vertex list each of whose members has a child
in the list.  Third, a duplicate/parentless root fails validation: a
record whose id never existed in the tree and that is not reachable from
the root id 0.  Fourth, whenever validation fails, Commit reports failure
and the entire bridge state - tree contents, tree data, registry, staging
buffer - is returned bit-identical to its pre-commit state. -/
theorem commit_structural_failure_atomic (s : BridgeState)
    (hne : ¬ (s.pendingNodes = [] ∧ s.pendingActions = [])) :
    (∀ i n c, alookup (mergedOf s) i = some n → c ∈ n.childIds →
        c ∉ akeys (mergedOf s) →
        structOk (mergedOf s) (akeys s.tree.nodes) = false)
    ∧ (∀ cyc : List Int, cyc ≠ [] →
        (∀ x ∈ cyc, ∃ y ∈ cyc, y ∈ childrenIn (childMapOf (mergedOf s)) x) →
        structOk (mergedOf s) (akeys s.tree.nodes) = false)
    ∧ (∀ k, k ∈ akeys (mergedOf s) → k ∉ akeys s.tree.nodes →
        k ∉ reachOf (mergedOf s) →
        structOk (mergedOf s) (akeys s.tree.nodes) = false)
    ∧ (structOk (mergedOf s) (akeys s.tree.nodes) = false →
        commitUpdates s = (s, [], .failed)) := by
  refine ⟨?_, ?_, ?_, ?_⟩
  · intro i n c hlook hc hck
    by_contra hok
    have hok2 : structOk (mergedOf s) (akeys s.tree.nodes) = true := by
      cases hval : structOk (mergedOf s) (akeys s.tree.nodes)
      · exact absurd hval hok
      · rfl
    unfold structOk structOkCM at hok2
    simp only [Bool.and_eq_true, Bool.or_eq_true, List.all_eq_true,
      decide_eq_true_eq] at hok2
    obtain ⟨⟨⟨⟨⟨-, hchild⟩, -⟩, -⟩, -⟩, -⟩ := hok2
    have hikey : i ∈ (childMapOf (mergedOf s)).map (·.1) := by
      have : (alookup (childMapOf (mergedOf s)) i).isSome = true := by
        rw [alookup_childMapOf, hlook]
        rfl
      exact (alookup_isSome_iff _ _).mp this
    have hcin : c ∈ childrenIn (childMapOf (mergedOf s)) i := by
      unfold childrenIn
      rw [alookup_childMapOf, hlook]
      simpa using hc
    have hkeys := hchild i hikey c hcin
    rw [akeys_childMapOf] at hkeys
    exact hck hkeys
  · intro cyc hnil hcyc
    by_contra hok
    have hok2 : structOk (mergedOf s) (akeys s.tree.nodes) = true := by
      cases hval : structOk (mergedOf s) (akeys s.tree.nodes)
      · exact absurd hval hok
      · rfl
    unfold structOk structOkCM at hok2
    simp only [Bool.and_eq_true, Bool.or_eq_true, List.all_eq_true,
      decide_eq_true_eq] at hok2
    obtain ⟨-, hpeel⟩ := hok2
    obtain ⟨x0, hx0⟩ := List.exists_mem_of_ne_nil cyc hnil
    have hx0key : (alookup (childMapOf (mergedOf s)) x0).isSome = true := by
      obtain ⟨y, hy, hyc⟩ := hcyc x0 hx0
      cases hl : alookup (childMapOf (mergedOf s)) x0 with
      | none =>
        unfold childrenIn at hyc
        rw [hl] at hyc
        simp at hyc
      | some l => rfl
    have hx0mem : x0 ∈ (childMapOf (mergedOf s)).map (·.1) :=
      (alookup_isSome_iff _ _).mp hx0key
    exact peelIter_avoids_cycle _ cyc hcyc _ [] (by simp) x0 hx0 (hpeel x0 hx0mem)
  · intro k hk hkold hkreach
    by_contra hok
    have hok2 : structOk (mergedOf s) (akeys s.tree.nodes) = true := by
      cases hval : structOk (mergedOf s) (akeys s.tree.nodes)
      · exact absurd hval hok
      · rfl
    unfold structOk structOkCM at hok2
    simp only [Bool.and_eq_true, Bool.or_eq_true, List.all_eq_true,
      decide_eq_true_eq] at hok2
    obtain ⟨⟨-, hattach⟩, -⟩ := hok2
    have hkmem : k ∈ (childMapOf (mergedOf s)).map (·.1) := by
      rw [akeys_childMapOf]
      exact hk
    rcases hattach k hkmem with hko | hkr
    · exact hkold hko
    · exact hkreach hkr
  · intro hfail
    have hcc : commitCore s.tree s.pendingNodes s.pendingActions s.committedActions
        = .failed := by
      have hfail2 : structOk (mergedMap s.tree s.pendingNodes
          (overlay s.pendingActions s.committedActions)) (akeys s.tree.nodes)
          = false := hfail
      unfold commitCore
      rw [if_neg hne, hfail2]
      simp
    simp [commitUpdates, hcc]

/-- Witness for C1: three concrete malformed batches on a fresh bridge -
a root listing the absent child 99, a detached two-node cycle, and a
second parentless record 7 - each fail validation and each Commit leaves
the state untouched. -/
theorem commit_structural_failure_atomic_witness :
    structOk (mergedOf exOrphan) (akeys exOrphan.tree.nodes) = false
    ∧ commitUpdates exOrphan = (exOrphan, [], .failed)
    ∧ structOk (mergedOf exCycle) (akeys exCycle.tree.nodes) = false
    ∧ commitUpdates exCycle = (exCycle, [], .failed)
    ∧ structOk (mergedOf exSecondRoot) (akeys exSecondRoot.tree.nodes) = false
    ∧ commitUpdates exSecondRoot = (exSecondRoot, [], .failed) := by
  have h1 := commit_structural_failure_atomic exOrphan (by decide)
  have h2 := commit_structural_failure_atomic exCycle (by decide)
  have h3 := commit_structural_failure_atomic exSecondRoot (by decide)
  have hf1 := h1.1 0 { childIds := [99] } 99 (by decide) (by decide) (by decide)
  have hf2 := h2.2.1 [1, 2] (by decide) (by decide)
  have hf3 := h3.2.2.1 7 (by decide) (by decide) (by decide)
  exact ⟨hf1, h1.2.2.2 hf1, hf2, h2.2.2.2 hf2, hf3, h3.2.2.2 hf3⟩

/-- C7: the staging buffer's post-state is determined by the commit
outcome - on success both pending mappings are cleared unconditionally, on
structural failure both pending mappings are retained unchanged so a
corrected batch can be resubmitted. -/
theorem staging_cleared_iff_success (s : BridgeState) :
    ((commitUpdates s).2.2 = .ok →
      (commitUpdates s).1.pendingNodes = [] ∧ (commitUpdates s).1.pendingActions = [])
    ∧ ((commitUpdates s).2.2 = .failed →
      (commitUpdates s).1.pendingNodes = s.pendingNodes
        ∧ (commitUpdates s).1.pendingActions = s.pendingActions) := by
  cases hc : commitCore s.tree s.pendingNodes s.pendingActions s.committedActions with
  | noop => simp [commitUpdates, hc]
  | failed => simp [commitUpdates, hc]
  | ok nt nca evs => simp [commitUpdates, hc, applyOk]

/-- Witness for C7: the valid two-node batch commits and clears both
pending mappings; the orphan batch fails and retains them. -/
theorem staging_cleared_iff_success_witness :
    ((commitUpdates exTwo).1.pendingNodes = [] ∧ (commitUpdates exTwo).1.pendingActions = [])
    ∧ (commitUpdates exOrphan).1.pendingNodes = exOrphan.pendingNodes := by
  refine ⟨(staging_cleared_iff_success exTwo).1 ?_, ((staging_cleared_iff_success exOrphan).2 ?_).1⟩
  · decide
  · decide

/-- C3: reparenting preserves delegate identity - when a committed update
keeps a node id in the tree but changes its parent from P to Q, the
delegate registered for that id is untouched (same lookup result, hence
the same registry entry and token), exactly one reparented event fires for
the id, and no created or deleted event fires for it. -/
theorem reparent_preserves_delegate (s : BridgeState) (x P Q : Int)
    (hok : (commitUpdates s).2.2 = .ok)
    (hx_old : x ∈ akeys s.tree.nodes)
    (hx_new : x ∈ akeys (commitUpdates s).1.tree.nodes)
    (hP : parentOf s.tree.nodes x = some P)
    (hQ : parentOf (commitUpdates s).1.tree.nodes x = some Q)
    (hPQ : P ≠ Q) :
    getFlutterPlatformNodeDelegateFromID (commitUpdates s).1 x
      = getFlutterPlatformNodeDelegateFromID s x
    ∧ ((commitUpdates s).2.1).count ⟨x, .nodeReparented⟩ = 1
    ∧ AXEvent.mk x .nodeCreated ∉ (commitUpdates s).2.1
    ∧ AXEvent.mk x .nodeDeleted ∉ (commitUpdates s).2.1 := by
  cases hc : commitCore s.tree s.pendingNodes s.pendingActions s.committedActions with
  | noop =>
    rw [commitUpdates_status, hc] at hok
    exact absurd hok (by simp [statusOf])
  | failed =>
    rw [commitUpdates_status, hc] at hok
    exact absurd hok (by simp [statusOf])
  | ok nt nca evs =>
    obtain ⟨hnt, -, hevs, -⟩ := commitCore_ok_elim _ _ _ _ _ _ _ hc
    have hS1 : (commitUpdates s).1 = applyOk s nt nca evs := by
      simp [commitUpdates, hc]
    have hS2 : (commitUpdates s).2.1 = evs := by
      simp [commitUpdates, hc]
    rw [hS1] at hx_new hQ
    rw [hS1, hS2]
    have hx_new2 : x ∈ akeys nt.nodes := hx_new
    have hQ2 : parentOf nt.nodes x = some Q := hQ
    have hevs2 : evs = eventsOf s.tree nt := by rw [hevs, hnt]
    refine ⟨?_, ?_, ?_, ?_⟩
    · show alookup (registryAfter s.registry s.tree nt s.nextDelegate) x
        = alookup s.registry x
      apply alookup_registryAfter_untouched
      · intro hD
        exact ((mem_deletedIds _ _ _).mp hD).2 hx_new2
      · intro hC
        exact ((mem_createdIds _ _ _).mp hC).2 hx_old
    · rw [hevs2]
      unfold eventsOf eventsTail
      simp only [List.count_append]
      rw [count_map_mk_ne _ _ _ _ (by decide), count_map_mk_ne _ _ _ _ (by decide),
        count_map_mk_ne _ _ _ _ (by decide), count_map_mk_self,
        count_map_mk_ne _ _ _ _ (by decide), count_map_mk_ne _ _ _ _ (by decide),
        count_map_mk_ne _ _ _ _ (by decide)]
      have hfocus : (if s.tree.data.focusId ≠ nt.data.focusId then
          [AXEvent.mk nt.data.focusId .focusChanged] else []).count
            ⟨x, .nodeReparented⟩ = 0 := by
        split
        · simp [List.count_cons]
        · simp
      rw [hfocus]
      have hnodup : ((survivorIds s.tree nt).filter
          (fun i => decide (parentOf s.tree.nodes i ≠ parentOf nt.nodes i))).Nodup := by
        apply List.Nodup.filter
        unfold survivorIds
        apply List.Nodup.filter
        rw [hnt]
        exact akeys_newTree_nodup _
      have hmem : x ∈ (survivorIds s.tree nt).filter
          (fun i => decide (parentOf s.tree.nodes i ≠ parentOf nt.nodes i)) := by
        rw [List.mem_filter]
        refine ⟨(mem_survivorIds _ _ _).mpr ⟨hx_new2, hx_old⟩, ?_⟩
        simp only [decide_eq_true_eq]
        rw [hP, hQ2]
        intro hcon
        injection hcon with hcon2
        exact hPQ hcon2
      rw [List.count_eq_one_of_mem hnodup hmem]
    · rw [hevs2]
      intro hmem
      have hk := mem_eventsOf_kind _ _ _ hmem
      rcases hk with ⟨hk, -⟩ | ⟨hk, -⟩ | ⟨-, hm⟩ | ⟨hk, -⟩ | ⟨hk, -⟩ | ⟨hk, -⟩ |
        ⟨hk, -⟩ | hk
      · simp at hk
      · simp at hk
      · exact ((mem_createdIds _ _ _).mp hm).2 hx_old
      · simp at hk
      · simp at hk
      · simp at hk
      · simp at hk
      · simp at hk
    · rw [hevs2]
      intro hmem
      have hk := mem_eventsOf_kind _ _ _ hmem
      rcases hk with ⟨hk, -⟩ | ⟨-, hm⟩ | ⟨hk, -⟩ | ⟨hk, -⟩ | ⟨hk, -⟩ | ⟨hk, -⟩ |
        ⟨hk, -⟩ | hk
      · simp at hk
      · exact ((mem_deletedIds _ _ _).mp hm).2 hx_new2
      · simp at hk
      · simp at hk
      · simp at hk
      · simp at hk
      · simp at hk
      · simp at hk

/-- Witness for C3: in the committed tree 0 -> [1, 2], 1 -> [3], the batch
that moves node 3 under node 2 keeps node 3's delegate, fires exactly one
reparented event for id 3 and no created/deleted event for it. -/
theorem reparent_preserves_delegate_witness :
    getFlutterPlatformNodeDelegateFromID (commitUpdates exReparent).1 3
      = getFlutterPlatformNodeDelegateFromID exReparent 3
    ∧ ((commitUpdates exReparent).2.1).count ⟨3, .nodeReparented⟩ = 1
    ∧ AXEvent.mk 3 .nodeCreated ∉ (commitUpdates exReparent).2.1
    ∧ AXEvent.mk 3 .nodeDeleted ∉ (commitUpdates exReparent).2.1 :=
  reparent_preserves_delegate exReparent 3 1 2 (by decide) (by decide) (by decide)
    (by decide) (by decide) (by decide)

/-- C5: for every operation sequence and every id, the delegate lookup
returns a live handle exactly when the id is currently a node of the tree:
it is absent/expired precisely for ids never created or since removed.
The lookup is a total function (never an exception), and it returns the
registry token without extending any lifetime - the model erases the
registry's sole strong reference on deletion, at which point lookup turns
`none`. -/
theorem delegate_lookup_iff_tree_membership (ops : List Op) (id : Int) :
    (getFlutterPlatformNodeDelegateFromID (runOps ops) id).isSome = true
      ↔ id ∈ akeys (runOps ops).tree.nodes :=
  runOps_registry_inv ops id

/-- C4: subtree teardown ordering - when a commit deletes a node whose
deleted subtree is non-empty, the single subtree-will-be-deleted
notification for that node occurs exactly once in the event sequence and
precedes every per-node deleted notification (in particular those of the
node and all its deleted descendants: no deleted notification occurs
before it), and after the commit the registry holds no entry for any
deleted id - the node and all its descendants included. -/
theorem subtree_teardown_ordering (s : BridgeState) (d : Int)
    (hWF : (akeys s.tree.nodes).Nodup)
    (hok : (commitUpdates s).2.2 = .ok)
    (hd_old : d ∈ akeys s.tree.nodes)
    (hd_gone : d ∉ akeys (commitUpdates s).1.tree.nodes)
    (hkids : deletedKids s.tree (commitUpdates s).1.tree d ≠ []) :
    (∃ A B, (commitUpdates s).2.1 = A ++ AXEvent.mk d .subtreeWillBeDeleted :: B
      ∧ AXEvent.mk d .subtreeWillBeDeleted ∉ A
      ∧ AXEvent.mk d .subtreeWillBeDeleted ∉ B
      ∧ ∀ x, AXEvent.mk x .nodeDeleted ∉ A)
    ∧ (∀ x, x ∈ akeys s.tree.nodes → x ∉ akeys (commitUpdates s).1.tree.nodes →
        getFlutterPlatformNodeDelegateFromID (commitUpdates s).1 x = none) := by
  cases hc : commitCore s.tree s.pendingNodes s.pendingActions s.committedActions with
  | noop =>
    rw [commitUpdates_status, hc] at hok
    exact absurd hok (by simp [statusOf])
  | failed =>
    rw [commitUpdates_status, hc] at hok
    exact absurd hok (by simp [statusOf])
  | ok nt nca evs =>
    have hS1 : (commitUpdates s).1 = applyOk s nt nca evs := by
      simp [commitUpdates, hc]
    have hS2 : (commitUpdates s).2.1 = evs := by
      simp [commitUpdates, hc]
    obtain ⟨hnt, -, hevs, -⟩ := commitCore_ok_elim _ _ _ _ _ _ _ hc
    rw [hS1] at hd_gone hkids
    rw [hS1, hS2]
    have hd_gone2 : d ∉ akeys nt.nodes := hd_gone
    have hkids2 : deletedKids s.tree nt d ≠ [] := hkids
    have hevs2 : evs = eventsOf s.tree nt := by rw [hevs, hnt]
    constructor
    · rw [hevs2]
      have hdD : d ∈ deletedIds s.tree nt := (mem_deletedIds _ _ _).mpr ⟨hd_old, hd_gone2⟩
      have hdS : d ∈ (deletedIds s.tree nt).filter
          (fun i => decide (deletedKids s.tree nt i ≠ [])) := by
        rw [List.mem_filter]
        exact ⟨hdD, by simpa using hkids2⟩
      have hSnodup : ((deletedIds s.tree nt).filter
          (fun i => decide (deletedKids s.tree nt i ≠ []))).Nodup :=
        (hWF.filter _).filter _
      obtain ⟨S1, S2, hsplit⟩ := List.append_of_mem hdS
      rw [hsplit] at hSnodup
      have hd1 : d ∉ S1 := by
        intro hmem
        exact (List.disjoint_of_nodup_append hSnodup) hmem (List.mem_cons_self _ _)
      have hd2 : d ∉ S2 :=
        (List.nodup_cons.mp (List.nodup_append.mp hSnodup).2.1).1
      refine ⟨S1.map (fun i => AXEvent.mk i .subtreeWillBeDeleted),
        S2.map (fun i => AXEvent.mk i .subtreeWillBeDeleted) ++ eventsTail s.tree nt,
        ?_, ?_, ?_, ?_⟩
      · show eventsOf s.tree nt = _
        unfold eventsOf
        rw [hsplit, List.map_append, List.map_cons, List.append_assoc, List.cons_append]
      · intro hmem
        exact hd1 (mem_map_mk_elim _ _ _ _ hmem).2
      · intro hmem
        rcases List.mem_append.mp hmem with h | h
        · exact hd2 (mem_map_mk_elim _ _ _ _ h).2
        · unfold eventsTail at h
          simp only [List.mem_append] at h
          rcases h with ((((((h | h) | h) | h) | h) | h) | h)
          · exact absurd (mem_map_mk_elim _ _ _ _ h).1 (by decide)
          · exact absurd (mem_map_mk_elim _ _ _ _ h).1 (by decide)
          · exact absurd (mem_map_mk_elim _ _ _ _ h).1 (by decide)
          · exact absurd (mem_map_mk_elim _ _ _ _ h).1 (by decide)
          · exact absurd (mem_map_mk_elim _ _ _ _ h).1 (by decide)
          · exact absurd (mem_map_mk_elim _ _ _ _ h).1 (by decide)
          · by_cases hf : s.tree.data.focusId ≠ nt.data.focusId
            · rw [if_pos hf] at h
              have h2 := List.mem_singleton.mp h
              injection h2 with h3 h4
              exact absurd h4 (by decide)
            · rw [if_neg hf] at h
              simp at h
      · intro x hmem
        exact absurd (mem_map_mk_elim _ _ _ _ hmem).1 (by decide)
    · intro x hx1 hx2
      show alookup (registryAfter s.registry s.tree nt s.nextDelegate) x = none
      exact alookup_registryAfter_deleted _ _ _ _ _
        ((mem_deletedIds _ _ _).mpr ⟨hx1, hx2⟩)

/-- Witness for C4: detaching node 1 (children 2 and 3) from the committed
tree 0 -> [1], 1 -> [2, 3] fires one subtree-will-be-deleted notification
for id 1 before any per-node deletion, and empties the registry entries of
every deleted id. -/
theorem subtree_teardown_ordering_witness :
    (∃ A B, (commitUpdates exDelete).2.1 = A ++ AXEvent.mk 1 .subtreeWillBeDeleted :: B
      ∧ AXEvent.mk 1 .subtreeWillBeDeleted ∉ A
      ∧ AXEvent.mk 1 .subtreeWillBeDeleted ∉ B
      ∧ ∀ x, AXEvent.mk x .nodeDeleted ∉ A)
    ∧ (∀ x, x ∈ akeys exDelete.tree.nodes → x ∉ akeys (commitUpdates exDelete).1.tree.nodes →
        getFlutterPlatformNodeDelegateFromID (commitUpdates exDelete).1 x = none) :=
  subtree_teardown_ordering exDelete 1 (by decide) (by decide) (by decide) (by decide)
    (by decide)

/-- C9: dangling custom-action references are non-fatal.  First, the
commit status never depends on a pending record's custom-action reference
list: replacing it by any other list (in particular one with only missing
ids) leaves the status - success or failure - unchanged, so a dangling
reference alone never fails a commit.  Second, resolution drops every
unresolvable reference: any custom-action id carried by any node of the
tree resolves in the committed custom-action table, so a node whose
references were all missing carries the empty list. -/
theorem dangling_custom_action_nonfatal :
    (∀ (s : BridgeState) (pn₁ pn₂ : List (Int × SemanticsNode)) (i : Int)
        (r : SemanticsNode) (l : List Int),
      s.pendingNodes = pn₁ ++ (i, r) :: pn₂ →
      (commitUpdates { s with pendingNodes :=
          pn₁ ++ (i, { r with customAccessibilityActions := l }) :: pn₂ }).2.2
        = (commitUpdates s).2.2)
    ∧ (∀ (ops : List Op) (i : Int) (d : AXNodeData) (a : Int),
      alookup (runOps ops).tree.nodes i = some d → a ∈ d.customActionIds →
      (alookup (runOps ops).committedActions a).isSome = true) := by
  constructor
  · intro s pn₁ pn₂ i r l hpn
    rw [commitUpdates_status, commitUpdates_status]
    show statusOf (commitCore s.tree
        (pn₁ ++ (i, { r with customAccessibilityActions := l }) :: pn₂)
        s.pendingActions s.committedActions)
      = statusOf (commitCore s.tree s.pendingNodes s.pendingActions s.committedActions)
    rw [hpn]
    have hso : structOk (mergedMap s.tree
        (pn₁ ++ (i, { r with customAccessibilityActions := l }) :: pn₂)
        (overlay s.pendingActions s.committedActions)) (akeys s.tree.nodes)
        = structOk (mergedMap s.tree (pn₁ ++ (i, r) :: pn₂)
            (overlay s.pendingActions s.committedActions)) (akeys s.tree.nodes) := by
      unfold structOk
      rw [childMapOf_mergedMap, childMapOf_mergedMap, List.foldl_append,
        List.foldl_append]
      rfl
    have hne1 : ¬(pn₁ ++ (i, { r with customAccessibilityActions := l }) :: pn₂ = []
        ∧ s.pendingActions = []) := by
      intro hcon
      simp at hcon
    have hne2 : ¬(pn₁ ++ (i, r) :: pn₂ = [] ∧ s.pendingActions = []) := by
      intro hcon
      simp at hcon
    unfold commitCore
    rw [if_neg hne1, if_neg hne2, hso]
    cases hval : structOk (mergedMap s.tree (pn₁ ++ (i, r) :: pn₂)
        (overlay s.pendingActions s.committedActions)) (akeys s.tree.nodes) <;>
      simp [hval, statusOf]
  · have hstep : ∀ (s : BridgeState),
        (∀ i d a, alookup s.tree.nodes i = some d → a ∈ d.customActionIds →
          (alookup s.committedActions a).isSome = true) →
        ∀ op i d a, alookup (stepOp s op).tree.nodes i = some d →
          a ∈ d.customActionIds →
          (alookup (stepOp s op).committedActions a).isSome = true := by
      intro s hInv op
      cases op with
      | addNode n => exact hInv
      | addAction a2 => exact hInv
      | commit =>
        show ∀ i d a, alookup (commitUpdates s).1.tree.nodes i = some d →
          a ∈ d.customActionIds →
          (alookup (commitUpdates s).1.committedActions a).isSome = true
        cases hc : commitCore s.tree s.pendingNodes s.pendingActions s.committedActions with
        | noop => simpa [commitUpdates, hc] using hInv
        | failed => simpa [commitUpdates, hc] using hInv
        | ok nt nca evs =>
          obtain ⟨hnt, hnca, -, -⟩ := commitCore_ok_elim _ _ _ _ _ _ _ hc
          have hS1 : (commitUpdates s).1 = applyOk s nt nca evs := by
            simp [commitUpdates, hc]
          rw [hS1]
          intro i d a hl ha
          show (alookup nca a).isSome = true
          have hl2 : alookup nt.nodes i = some d := hl
          rw [hnt] at hl2
          have hm := alookup_newTree _ _ _ hl2
          have hdec := alookup_foldl_ainsert
            (fun rr => convertNode rr (overlay s.pendingActions s.committedActions))
            s.pendingNodes s.tree.nodes i d hm
          rcases hdec with ⟨p, -, -, hpd⟩ | hold
          · rw [hpd] at ha
            simp only [convertNode] at ha
            have := (List.mem_filter.mp ha).2
            rw [hnca]
            exact this
          · have := hInv i d a hold ha
            rw [hnca]
            exact alookup_overlay_isSome_mono _ _ _ this
    have hall : ∀ (l : List Op) (s : BridgeState),
        (∀ i d a, alookup s.tree.nodes i = some d → a ∈ d.customActionIds →
          (alookup s.committedActions a).isSome = true) →
        ∀ i d a, alookup ((l.foldl stepOp s)).tree.nodes i = some d →
          a ∈ d.customActionIds →
          (alookup (l.foldl stepOp s).committedActions a).isSome = true := by
      intro l
      induction l with
      | nil => intro s hs; exact hs
      | cons op rest ih =>
        intro s hs
        exact ih _ (hstep s hs op)
    intro ops i d a
    refine hall ops initialBridge ?_ i d a
    intro i2 d2 a2 hl2
    simp [initialBridge, alookup] at hl2

/-- Witness for C9: emptying the dangling reference list of the staged
root does not change the commit status, and the action id 5 carried by the
committed root of `exActionOps` resolves in the committed table. -/
theorem dangling_custom_action_nonfatal_witness :
    (commitUpdates { exDangling with pendingNodes := [(0, { id := 0 })] }).2.2
      = (commitUpdates exDangling).2.2
    ∧ (alookup (runOps exActionOps).committedActions 5).isSome = true := by
  constructor
  · exact (dangling_custom_action_nonfatal).1 exDangling [] [] 0
      { id := 0, customAccessibilityActions := [5] } [] rfl
  · exact (dangling_custom_action_nonfatal).2 exActionOps 0
      { customActionIds := [5] } 5 (by decide) (by decide)

end EngineA11y
